import Mathlib

/-!
Verification development for a Minesweeper AI consisting of two engines:
a propositional knowledge base (class MinesweeperAI with Sentence objects)
and a constraint-satisfaction backtracking solver (SolveMinesweeper and
friends).  The definitions below are a shallow embedding of the Python
source (src/minesweeper.py): Python lists of lists holding the solver
grids become total functions on integer pairs, Python sets become
finite sets, the recursive backtracking procedure and the unboundedly
growing resolution loop are given an explicit fuel parameter and return
an `Option` value, where `some` means the Python code terminates with
that result.
-/

namespace Minesweeper

/-- A board coordinate, a pair of (unbounded) integers as in Python. -/
abbrev Cell : Type := ℤ × ℤ

/-- Solver placement grid, true means a mine is placed. -/
abbrev Grid : Type := Cell → Bool

/-- Solver target / remaining count matrix. -/
abbrev Arr : Type := Cell → ℤ

/-- Solver visited matrix. -/
abbrev Vis : Type := Cell → Bool

/-- Row offsets of the nine cells of a closed 3x3 neighborhood (source line 5). -/
def dx : List ℤ := [-1, 0, 1, -1, 0, 1, -1, 0, 1]

/-- Column offsets of the nine cells of a closed 3x3 neighborhood (source line 6). -/
def dy : List ℤ := [0, 0, 0, -1, -1, -1, 1, 1, 1]

/-- The nine offset pairs `(dx[i], dy[i])` for `i in range(9)`. -/
def offs : List Cell := dx.zip dy

/-- The nine cells `(x + dx[i], y + dy[i])` visited by the solver loops. -/
def nbhdTargets (x y : ℤ) : List Cell := offs.map (fun d => (x + d.1, y + d.2))

/-- Embedding of `MinesweeperAI.isValid` (source line 241). -/
def isValid (x y : ℤ) (N M : ℕ) : Prop :=
  x ≥ 0 ∧ y ≥ 0 ∧ x < (N : ℤ) ∧ y < (M : ℤ)

instance (x y : ℤ) (N M : ℕ) : Decidable (isValid x y N M) := by
  unfold isValid; infer_instance

/-- The mutation loops of `isSafe` (decrement, source line 265) and of the
rollback in `SolveMinesweeper` (increment, source line 315): add `d` to
every in-bounds entry `arr[x + dx[i]][y + dy[i]]`. -/
def adjustNbhd (d : ℤ) (a : Arr) (x y : ℤ) (N M : ℕ) : Arr :=
  (nbhdTargets x y).foldl
    (fun b q => if isValid q.1 q.2 N M then Function.update b q (b q + d) else b) a

/-- Embedding of `MinesweeperAI.isSafe` (source line 254).  The Python
function mutates `arr` exactly when it returns True; the embedding
returns the flag together with the resulting array. -/
def isSafe (a : Arr) (x y : ℤ) (N M : ℕ) : Bool × Arr :=
  if ¬ isValid x y N M then (false, a)
  else if (nbhdTargets x y).any
      (fun q => decide (isValid q.1 q.2 N M) && decide (a q - 1 < 0)) then
    (false, a)
  else (true, adjustNbhd (-1) a x y N M)

/-- Inner loop of `findUnvisited`: scan columns `j, j+1, ...` of row `x`,
with `k` columns left to scan. -/
def findUnvisitedRow (v : Vis) (x : ℤ) : ℕ → ℕ → Option ℤ
  | 0, _ => none
  | k + 1, j => if v (x, (j : ℤ)) = false then some (j : ℤ) else findUnvisitedRow v x k (j + 1)

/-- Outer loop of `findUnvisited`: scan rows `i, i+1, ...` with `k` rows
left, returning the Python sentinel `(-1, -1)` when every cell is visited. -/
def findUnvisitedGo (v : Vis) (M : ℕ) : ℕ → ℕ → Cell
  | 0, _ => (-1, -1)
  | k + 1, i =>
    match findUnvisitedRow v (i : ℤ) M 0 with
    | some y => ((i : ℤ), y)
    | none => findUnvisitedGo v M k (i + 1)

/-- Embedding of `MinesweeperAI.findUnvisited` (source line 272): first
unvisited cell in row-major order, or `(-1, -1)`. -/
def findUnvisited (v : Vis) (N M : ℕ) : Cell := findUnvisitedGo v M N 0

/-- Embedding of `MinesweeperAI.isDone` (source line 279): every entry of
`arr` is zero and every cell is visited. -/
def isDone (a : Arr) (v : Vis) (N M : ℕ) : Bool :=
  (List.range N).all (fun i =>
    (List.range M).all (fun j => decide (a ((i : ℤ), (j : ℤ)) = 0) && v ((i : ℤ), (j : ℤ))))

/-- Embedding of `MinesweeperAI.SolveMinesweeper` (source line 286).  The
Python function mutates `grid`, `arr` and `visited` in place and returns
a boolean; the embedding threads the three grids explicitly.  `fuel`
bounds the recursion depth; `none` means the bound was hit. -/
def SolveMinesweeper : ℕ → Grid → Arr → Vis → ℕ → ℕ → Option (Bool × Grid × Arr × Vis)
  | 0, _, _, _, _, _ => none
  | fuel + 1, g, a, v, N, M =>
    if isDone a v N M then some (true, g, a, v)
    else
      if (findUnvisited v N M).1 = -1 ∧ (findUnvisited v N M).2 = -1 then
        some (false, g, a, v)
      else
        if (isSafe a (findUnvisited v N M).1 (findUnvisited v N M).2 N M).1 then
          match SolveMinesweeper fuel (Function.update g (findUnvisited v N M) true)
              (isSafe a (findUnvisited v N M).1 (findUnvisited v N M).2 N M).2
              (Function.update v (findUnvisited v N M) true) N M with
          | none => none
          | some (true, g', a', v') => some (true, g', a', v')
          | some (false, g2, a3, v2) =>
            match SolveMinesweeper fuel (Function.update g2 (findUnvisited v N M) false)
                (adjustNbhd 1 a3 (findUnvisited v N M).1 (findUnvisited v N M).2 N M) v2 N M with
            | none => none
            | some (true, g', a', v') => some (true, g', a', v')
            | some (false, g4, a5, v4) =>
              some (false, g4, a5, Function.update v4 (findUnvisited v N M) false)
        else
          match SolveMinesweeper fuel g a (Function.update v (findUnvisited v N M) true) N M with
          | none => none
          | some (true, g', a', v') => some (true, g', a', v')
          | some (false, g4, a5, v4) =>
            some (false, g4, a5, Function.update v4 (findUnvisited v N M) false)

/-- Embedding of `MinesweeperAI.minesweeperOperations` (source line 330):
`some (some g)` is a returned grid, `some none` is the no-solution
outcome (the Python function prints and implicitly returns None),
`none` means the fuel bound was hit. -/
def minesweeperOperations (fuel : ℕ) (arr : Arr) (N M : ℕ) : Option (Option Grid) :=
  match SolveMinesweeper fuel (fun _ => false) arr (fun _ => false) N M with
  | none => none
  | some (true, g, _, _) => some (some g)
  | some (false, _, _, _) => some none

/-- Number of mines of `g` among the in-bounds cells of the closed 3x3
neighborhood of `p`, the cell itself included.  This is the count the
solver loops actually maintain, since `dx`/`dy` contain the offset
`(0, 0)`. -/
def closedMineCount (g : Grid) (N M : ℕ) (p : Cell) : ℤ :=
  (((nbhdTargets p.1 p.2).filter
    (fun q => decide (isValid q.1 q.2 N M) && g q)).length : ℤ)

/-- Modelled from the spec: the spec (section 3, Neighbor-Count Matrix,
and section 8, solver soundness) asks for the number of mines among the
in-bounds 8-neighbors of a cell, the cell itself excluded.  This
definition follows the spec words and is compared against the behavior
of the code. -/
def specNeighborMineCount (g : Grid) (N M : ℕ) (p : Cell) : ℤ :=
  (((nbhdTargets p.1 p.2).filter
    (fun q => decide (q ≠ p) && decide (isValid q.1 q.2 N M) && g q)).length : ℤ)

/-- Observation helper: the value of a returned placement grid at `p`,
or `none` when no grid was returned. -/
def resultGrid (r : Option (Option Grid)) (p : Cell) : Option Bool :=
  match r with
  | some (some g) => some (g p)
  | _ => none

/-- Observation helper: whether the solver call ended in the explicit
no-solution outcome. -/
def isNoSolution (r : Option (Option Grid)) : Bool :=
  match r with
  | some none => true
  | _ => false

/-- The 1x1 target matrix whose single entry is 1. -/
def arrOne : Arr := fun _ => 1

/-- The 1x1 target matrix whose single entry is 0. -/
def arrZero : Arr := fun _ => 0

/-- The 1x1 target matrix whose single entry is 2 (unsolvable). -/
def arrTwo : Arr := fun _ => 2

/-- The 2x2 target matrix all of whose entries are 3. -/
def arrThree : Arr := fun _ => 3

/-! ### Basic facts about the neighborhood loops -/

lemma mem_nbhdTargets {x y : ℤ} {p : Cell} :
    p ∈ nbhdTargets x y ↔ x - 1 ≤ p.1 ∧ p.1 ≤ x + 1 ∧ y - 1 ≤ p.2 ∧ p.2 ≤ y + 1 := by
  rcases p with ⟨px, py⟩
  simp only [nbhdTargets, offs, dx, dy, List.zip, List.zipWith, List.map, List.mem_cons,
    List.not_mem_nil, or_false, Prod.mk.injEq]
  omega

lemma nbhdTargets_symm {x y : ℤ} {p : Cell} :
    p ∈ nbhdTargets x y ↔ (x, y) ∈ nbhdTargets p.1 p.2 := by
  rw [mem_nbhdTargets, mem_nbhdTargets]
  omega

lemma nbhdTargets_nodup (x y : ℤ) : (nbhdTargets x y).Nodup := by
  simp only [nbhdTargets, offs, dx, dy, List.zip, List.zipWith, List.map]
  simp only [List.nodup_cons, List.mem_cons, List.not_mem_nil, List.nodup_nil,
    Prod.mk.injEq, not_or, or_false, and_true, ne_eq, not_and]
  norm_num

lemma foldl_adjust_apply (d : ℤ) (N M : ℕ) :
    ∀ (l : List Cell), l.Nodup → ∀ (a : Arr) (p : Cell),
      (l.foldl (fun b q => if isValid q.1 q.2 N M then Function.update b q (b q + d) else b) a) p
        = if p ∈ l ∧ isValid p.1 p.2 N M then a p + d else a p := by
  intro l
  induction l with
  | nil => intro _ a p; simp
  | cons q l ih =>
    intro hnd a p
    rw [List.nodup_cons] at hnd
    simp only [List.foldl_cons]
    by_cases hpq : p = q
    · subst hpq
      by_cases hv : isValid p.1 p.2 N M
      · rw [if_pos hv, ih hnd.2, if_neg (fun hc => hnd.1 hc.1), if_pos ⟨List.mem_cons_self _ _, hv⟩,
          Function.update_same]
      · rw [if_neg hv, ih hnd.2, if_neg (fun hc => hnd.1 hc.1),
          if_neg (fun hc => hv hc.2)]
    · have hstep : (if isValid q.1 q.2 N M then Function.update a q (a q + d) else a) p = a p := by
        split_ifs with hv
        · exact Function.update_noteq hpq _ a
        · rfl
      rw [ih hnd.2, hstep]
      exact if_congr (by rw [List.mem_cons]; tauto) rfl rfl

lemma adjustNbhd_apply (d : ℤ) (a : Arr) (x y : ℤ) (N M : ℕ) (p : Cell) :
    adjustNbhd d a x y N M p
      = if p ∈ nbhdTargets x y ∧ isValid p.1 p.2 N M then a p + d else a p :=
  foldl_adjust_apply d N M _ (nbhdTargets_nodup x y) a p

lemma adjustNbhd_inc_dec (a : Arr) (x y : ℤ) (N M : ℕ) :
    adjustNbhd 1 (adjustNbhd (-1) a x y N M) x y N M = a := by
  funext p
  rw [adjustNbhd_apply, adjustNbhd_apply]
  split_ifs <;> ring

lemma length_filter_update {α : Type} [DecidableEq α] (t : α) (q q' : α → Bool)
    (hagree : ∀ c, c ≠ t → q' c = q c) (hq : q t = false) :
    ∀ (l : List α), l.Nodup →
      (l.filter q').length = (l.filter q).length + (if t ∈ l ∧ q' t = true then 1 else 0) := by
  intro l
  induction l with
  | nil => intro _; simp
  | cons c l ih =>
    intro hnd
    rw [List.nodup_cons] at hnd
    rw [List.filter_cons, List.filter_cons]
    by_cases hct : c = t
    · subst hct
      have hfilt : l.filter q' = l.filter q :=
        List.filter_congr (fun x hx => hagree x (fun hxt => hnd.1 (hxt ▸ hx)))
      have hqne : ¬ q c = true := by simp [hq]
      by_cases hq't : q' c = true
      · rw [if_pos hq't, if_neg hqne, if_pos ⟨List.mem_cons_self c l, hq't⟩, hfilt]
        simp
      · rw [if_neg hq't, if_neg hqne, if_neg (fun hcon => hq't hcon.2), hfilt]
        simp
    · have hmem : (t ∈ c :: l ∧ q' t = true) ↔ (t ∈ l ∧ q' t = true) := by
        rw [List.mem_cons]
        constructor
        · rintro ⟨h1 | h1, h2⟩
          · exact absurd h1.symm hct
          · exact ⟨h1, h2⟩
        · rintro ⟨h1, h2⟩
          exact ⟨Or.inr h1, h2⟩
      rw [if_congr hmem rfl rfl, hagree c hct]
      by_cases hqc : q c = true
      · rw [if_pos hqc, if_pos hqc]
        simp only [List.length_cons, ih hnd.2]
        omega
      · rw [if_neg hqc, if_neg hqc]
        exact ih hnd.2

lemma closedMineCount_update (g : Grid) (N M : ℕ) (p t : Cell) (hgt : g t = false) :
    closedMineCount (Function.update g t true) N M p
      = closedMineCount g N M p
        + (if t ∈ nbhdTargets p.1 p.2 ∧ isValid t.1 t.2 N M then 1 else 0) := by
  unfold closedMineCount
  have h := length_filter_update t
    (fun q => decide (isValid q.1 q.2 N M) && g q)
    (fun q => decide (isValid q.1 q.2 N M) && Function.update g t true q)
    (fun c hc => by simp only [Function.update_noteq hc])
    (by simp only [hgt, Bool.and_false])
    (nbhdTargets p.1 p.2) (nbhdTargets_nodup p.1 p.2)
  simp only [Function.update_same, Bool.and_true, decide_eq_true_eq] at h
  rw [h]
  split_ifs <;> push_cast <;> ring

lemma closedMineCount_bot (N M : ℕ) (p : Cell) :
    closedMineCount (fun _ => false) N M p = 0 := by
  simp [closedMineCount]

/-! ### Specifications of the scanning helpers -/

lemma findUnvisitedRow_spec (v : Vis) (x : ℤ) :
    ∀ (k j : ℕ) (y : ℤ), findUnvisitedRow v x k j = some y →
      (j : ℤ) ≤ y ∧ y < (j : ℤ) + (k : ℤ) ∧ v (x, y) = false := by
  intro k
  induction k with
  | zero => intro j y h; simp [findUnvisitedRow] at h
  | succ k ih =>
    intro j y h
    rw [findUnvisitedRow] at h
    split_ifs at h with hv
    · cases h
      exact ⟨le_refl _, by omega, hv⟩
    · obtain ⟨h1, h2, h3⟩ := ih (j + 1) y h
      refine ⟨by push_cast at h1 ⊢; omega, by push_cast at h2 ⊢; omega, h3⟩

lemma findUnvisitedGo_spec (v : Vis) (M : ℕ) :
    ∀ (k i : ℕ) (p : Cell), findUnvisitedGo v M k i = p →
      p = (-1, -1) ∨ ((i : ℤ) ≤ p.1 ∧ p.1 < (i : ℤ) + (k : ℤ)
        ∧ 0 ≤ p.2 ∧ p.2 < (M : ℤ) ∧ v p = false) := by
  intro k
  induction k with
  | zero => intro i p h; rw [findUnvisitedGo] at h; exact Or.inl h.symm
  | succ k ih =>
    intro i p h
    rw [findUnvisitedGo] at h
    cases hrow : findUnvisitedRow v (i : ℤ) M 0 with
    | some y =>
      rw [hrow] at h
      obtain ⟨h1, h2, h3⟩ := findUnvisitedRow_spec v (i : ℤ) M 0 y hrow
      cases h
      refine Or.inr ⟨le_refl _, by push_cast; omega, by simpa using h1, by simpa using h2, h3⟩
    | none =>
      rw [hrow] at h
      rcases ih (i + 1) p h with h' | ⟨h1, h2, h3, h4, h5⟩
      · exact Or.inl h'
      · exact Or.inr ⟨by push_cast at h1 ⊢; omega, by push_cast at h2 ⊢; omega, h3, h4, h5⟩

lemma findUnvisited_spec {v : Vis} {N M : ℕ} {p : Cell} (h : findUnvisited v N M = p) :
    p = (-1, -1) ∨ (isValid p.1 p.2 N M ∧ v p = false) := by
  rcases findUnvisitedGo_spec v M N 0 p h with h' | ⟨h1, h2, h3, h4, h5⟩
  · exact Or.inl h'
  · exact Or.inr ⟨⟨by simpa using h1, h3, by simpa using h2, h4⟩, h5⟩

lemma isDone_spec {a : Arr} {v : Vis} {N M : ℕ} (h : isDone a v N M = true) :
    ∀ p : Cell, isValid p.1 p.2 N M → a p = 0 ∧ v p = true := by
  intro p hp
  simp only [isDone, List.all_eq_true, List.mem_range, Bool.and_eq_true,
    decide_eq_true_eq] at h
  obtain ⟨hx0, hy0, hxN, hyM⟩ := hp
  have hkey := h p.1.toNat (by omega) p.2.toNat (by omega)
  rw [Int.toNat_of_nonneg hx0, Int.toNat_of_nonneg hy0] at hkey
  exact hkey

/-! ### The backtracking invariants -/

lemma update_update_cancel {α β : Type} [DecidableEq α] (f : α → β) (t : α) (b c : β)
    (h : f t = b) : Function.update (Function.update f t c) t b = f := by
  rw [Function.update_idem, ← h, Function.update_eq_self]

/-- Unvisited cells carry no mine in the placement grid.  This holds for
the initial all-false grids and is maintained by the search. -/
def GridUnplaced (g : Grid) (v : Vis) : Prop :=
  ∀ p : Cell, v p = false → g p = false

lemma GridUnplaced.update_vis {g : Grid} {v : Vis} (h : GridUnplaced g v) (p : Cell) :
    GridUnplaced g (Function.update v p true) := by
  intro q hq
  by_cases hpq : q = p
  · subst hpq; rw [Function.update_same] at hq; cases hq
  · exact h q (by rwa [Function.update_noteq hpq] at hq)

lemma GridUnplaced.place {g : Grid} {v : Vis} (h : GridUnplaced g v) (p : Cell) :
    GridUnplaced (Function.update g p true) (Function.update v p true) := by
  intro q hq
  by_cases hpq : q = p
  · subst hpq; rw [Function.update_same] at hq; cases hq
  · rw [Function.update_noteq hpq]
    exact h.update_vis p q hq

/-- The main search invariant: every in-bounds entry of the working count
matrix equals its initial target value minus the number of mines already
placed in the closed neighborhood of that cell. -/
def SolveInv (arr0 : Arr) (N M : ℕ) (g : Grid) (a : Arr) : Prop :=
  ∀ p : Cell, isValid p.1 p.2 N M → a p = arr0 p - closedMineCount g N M p

lemma SolveInv_place {arr0 : Arr} {N M : ℕ} {g : Grid} {a : Arr} {p : Cell}
    (hv : isValid p.1 p.2 N M) (hg : g p = false) (hI : SolveInv arr0 N M g a) :
    SolveInv arr0 N M (Function.update g p true) (adjustNbhd (-1) a p.1 p.2 N M) := by
  intro c hc
  rw [adjustNbhd_apply, closedMineCount_update g N M c p hg, hI c hc]
  have hsym : c ∈ nbhdTargets p.1 p.2 ↔ p ∈ nbhdTargets c.1 c.2 := by
    rw [mem_nbhdTargets, mem_nbhdTargets]
    omega
  by_cases hin : c ∈ nbhdTargets p.1 p.2
  · rw [if_pos ⟨hin, hc⟩, if_pos ⟨hsym.mp hin, hv⟩]
    ring
  · rw [if_neg (fun hcon => hin hcon.1), if_neg (fun hcon => hin (hsym.mpr hcon.1))]
    ring

lemma isSafe_snd_of_true {a : Arr} {x y : ℤ} {N M : ℕ}
    (h : (isSafe a x y N M).1 = true) :
    (isSafe a x y N M).2 = adjustNbhd (-1) a x y N M := by
  unfold isSafe at h ⊢
  split_ifs at h ⊢
  all_goals simp_all

/-- Combined specification of the backtracking search, proved by one
induction on the fuel: a failing call restores the count matrix and the
visited grid exactly; under the `GridUnplaced` invariant it restores the
placement grid as well, maintains `GridUnplaced` and maintains the count
invariant `SolveInv`; and a successful call ends in a state passing
`isDone`. -/
theorem SolveMinesweeper_spec (N M : ℕ) :
    ∀ (fuel : ℕ) (g : Grid) (a : Arr) (v : Vis) (r : Bool) (g' : Grid) (a' : Arr) (v' : Vis),
      SolveMinesweeper fuel g a v N M = some (r, g', a', v') →
      ((r = false → a' = a ∧ v' = v)
        ∧ (GridUnplaced g v →
            (r = false → g' = g)
            ∧ GridUnplaced g' v'
            ∧ ∀ arr0 : Arr, SolveInv arr0 N M g a → SolveInv arr0 N M g' a')
        ∧ (r = true → isDone a' v' N M = true)) := by
  intro fuel
  induction fuel with
  | zero =>
    intro g a v r g' a' v' h
    simp [SolveMinesweeper] at h
  | succ fuel ih =>
    intro g a v r g' a' v' h
    rw [SolveMinesweeper] at h
    by_cases hdone : isDone a v N M = true
    · rw [if_pos hdone] at h
      simp only [Option.some.injEq, Prod.mk.injEq] at h
      obtain ⟨hr, hg, ha, hv⟩ := h
      subst hr; subst hg; subst ha; subst hv
      exact ⟨fun hf => Bool.noConfusion hf,
        fun hGU => ⟨fun hf => Bool.noConfusion hf, hGU, fun arr0 hI => hI⟩,
        fun _ => hdone⟩
    · rw [if_neg hdone] at h
      by_cases hsent : (findUnvisited v N M).1 = -1 ∧ (findUnvisited v N M).2 = -1
      · rw [if_pos hsent] at h
        simp only [Option.some.injEq, Prod.mk.injEq] at h
        obtain ⟨hr, hg, ha, hv⟩ := h
        subst hr; subst hg; subst ha; subst hv
        exact ⟨fun _ => ⟨rfl, rfl⟩,
          fun hGU => ⟨fun _ => rfl, hGU, fun arr0 hI => hI⟩,
          fun hf => Bool.noConfusion hf⟩
      · rw [if_neg hsent] at h
        have hpv : isValid (findUnvisited v N M).1 (findUnvisited v N M).2 N M
            ∧ v (findUnvisited v N M) = false := by
          rcases findUnvisited_spec (rfl : findUnvisited v N M = findUnvisited v N M) with h1 | h2
          · exact absurd ⟨by rw [h1], by rw [h1]⟩ hsent
          · exact h2
        by_cases hsafe : (isSafe a (findUnvisited v N M).1 (findUnvisited v N M).2 N M).1 = true
        · rw [if_pos hsafe, isSafe_snd_of_true hsafe] at h
          cases hrec1 : SolveMinesweeper fuel (Function.update g (findUnvisited v N M) true)
              (adjustNbhd (-1) a (findUnvisited v N M).1 (findUnvisited v N M).2 N M)
              (Function.update v (findUnvisited v N M) true) N M with
          | none => rw [hrec1] at h; cases h
          | some t =>
            obtain ⟨r1, g1, a1, v1'⟩ := t
            rw [hrec1] at h
            have IH1 := ih (Function.update g (findUnvisited v N M) true)
              (adjustNbhd (-1) a (findUnvisited v N M).1 (findUnvisited v N M).2 N M)
              (Function.update v (findUnvisited v N M) true) r1 g1 a1 v1' hrec1
            cases r1 with
            | true =>
              simp only [Option.some.injEq, Prod.mk.injEq] at h
              obtain ⟨hr, hg, ha, hv⟩ := h
              subst hr; subst hg; subst ha; subst hv
              refine ⟨fun hf => Bool.noConfusion hf, fun hGU => ?_, fun _ => IH1.2.2 rfl⟩
              have hGU1 := hGU.place (findUnvisited v N M)
              refine ⟨fun hf => Bool.noConfusion hf, (IH1.2.1 hGU1).2.1, fun arr0 hI => ?_⟩
              exact (IH1.2.1 hGU1).2.2 arr0
                (SolveInv_place hpv.1 (hGU _ hpv.2) hI)
            | false =>
              obtain ⟨ha1, hv1⟩ := IH1.1 rfl
              subst ha1; subst hv1
              simp only [] at h
              rw [adjustNbhd_inc_dec] at h
              cases hrec2 : SolveMinesweeper fuel
                  (Function.update g1 (findUnvisited v N M) false) a
                  (Function.update v (findUnvisited v N M) true) N M with
              | none => rw [hrec2] at h; cases h
              | some t2 =>
                obtain ⟨r2, g2, a2, v2'⟩ := t2
                rw [hrec2] at h
                have IH2 := ih (Function.update g1 (findUnvisited v N M) false) a
                  (Function.update v (findUnvisited v N M) true) r2 g2 a2 v2' hrec2
                cases r2 with
                | true =>
                  simp only [Option.some.injEq, Prod.mk.injEq] at h
                  obtain ⟨hr, hg, ha, hv⟩ := h
                  subst hr; subst hg; subst ha; subst hv
                  refine ⟨fun hf => Bool.noConfusion hf, fun hGU => ?_, fun _ => IH2.2.2 rfl⟩
                  have hg1 : g1 = Function.update g (findUnvisited v N M) true :=
                    (IH1.2.1 (hGU.place (findUnvisited v N M))).1 rfl
                  have hredo : Function.update g1 (findUnvisited v N M) false = g := by
                    rw [hg1, update_update_cancel g (findUnvisited v N M) false true
                      (hGU _ hpv.2)]
                  have hGU2 : GridUnplaced (Function.update g1 (findUnvisited v N M) false)
                      (Function.update v (findUnvisited v N M) true) := by
                    rw [hredo]
                    exact hGU.update_vis (findUnvisited v N M)
                  refine ⟨fun hf => Bool.noConfusion hf, (IH2.2.1 hGU2).2.1, fun arr0 hI => ?_⟩
                  refine (IH2.2.1 hGU2).2.2 arr0 ?_
                  rw [hredo]
                  exact hI
                | false =>
                  simp only [Option.some.injEq, Prod.mk.injEq] at h
                  obtain ⟨hr, hg, ha, hv⟩ := h
                  subst hr; subst hg; subst ha; subst hv
                  obtain ⟨ha2, hv2⟩ := IH2.1 rfl
                  subst ha2; subst hv2
                  have hvcancel : Function.update (Function.update v (findUnvisited v N M) true)
                      (findUnvisited v N M) false = v :=
                    update_update_cancel v (findUnvisited v N M) false true hpv.2
                  refine ⟨fun _ => ⟨rfl, hvcancel⟩, fun hGU => ?_, fun hf => Bool.noConfusion hf⟩
                  have hg1 : g1 = Function.update g (findUnvisited v N M) true :=
                    (IH1.2.1 (hGU.place (findUnvisited v N M))).1 rfl
                  have hredo : Function.update g1 (findUnvisited v N M) false = g := by
                    rw [hg1, update_update_cancel g (findUnvisited v N M) false true
                      (hGU _ hpv.2)]
                  have hGU2 : GridUnplaced (Function.update g1 (findUnvisited v N M) false)
                      (Function.update v (findUnvisited v N M) true) := by
                    rw [hredo]
                    exact hGU.update_vis (findUnvisited v N M)
                  have hg2 : g2 = Function.update g1 (findUnvisited v N M) false :=
                    (IH2.2.1 hGU2).1 rfl
                  refine ⟨fun _ => by rw [hg2, hredo], ?_, fun arr0 hI => ?_⟩
                  · rw [hg2, hredo, hvcancel]
                    exact hGU
                  · rw [hg2, hredo]
                    exact hI
        · rw [if_neg hsafe] at h
          cases hrec : SolveMinesweeper fuel g a
              (Function.update v (findUnvisited v N M) true) N M with
          | none => rw [hrec] at h; cases h
          | some t =>
            obtain ⟨r1, g1, a1, v1'⟩ := t
            rw [hrec] at h
            have IH := ih g a (Function.update v (findUnvisited v N M) true) r1 g1 a1 v1' hrec
            cases r1 with
            | true =>
              simp only [Option.some.injEq, Prod.mk.injEq] at h
              obtain ⟨hr, hg, ha, hv⟩ := h
              subst hr; subst hg; subst ha; subst hv
              refine ⟨fun hf => Bool.noConfusion hf, fun hGU => ?_, fun _ => IH.2.2 rfl⟩
              have hGU1 := hGU.update_vis (findUnvisited v N M)
              exact ⟨fun hf => Bool.noConfusion hf, (IH.2.1 hGU1).2.1,
                fun arr0 hI => (IH.2.1 hGU1).2.2 arr0 hI⟩
            | false =>
              simp only [Option.some.injEq, Prod.mk.injEq] at h
              obtain ⟨hr, hg, ha, hv⟩ := h
              subst hr; subst hg; subst ha; subst hv
              obtain ⟨ha1, hv1⟩ := IH.1 rfl
              subst ha1; subst hv1
              have hvcancel : Function.update (Function.update v (findUnvisited v N M) true)
                  (findUnvisited v N M) false = v :=
                update_update_cancel v (findUnvisited v N M) false true hpv.2
              refine ⟨fun _ => ⟨rfl, hvcancel⟩, fun hGU => ?_, fun hf => Bool.noConfusion hf⟩
              have hGU1 := hGU.update_vis (findUnvisited v N M)
              have hg1 : g1 = g := (IH.2.1 hGU1).1 rfl
              refine ⟨fun _ => hg1, ?_, fun arr0 hI => ?_⟩
              · rw [hg1, hvcancel]
                exact hGU
              · rw [hg1]
                exact hI

/-! ### Concrete solver runs used as witnesses -/

/-- The grid the solver returns on the 1x1 matrix `[[1]]`. -/
def gOne : Grid :=
  match minesweeperOperations 6 arrOne 1 1 with
  | some (some g) => g
  | _ => fun _ => false

/-- The full final state of the (successful) search on the 1x1 matrix `[[0]]`. -/
def solveZeroRun : Bool × Grid × Arr × Vis :=
  match SolveMinesweeper 6 (fun _ => false) arrZero (fun _ => false) 1 1 with
  | some t => t
  | none => (false, fun _ => false, arrZero, fun _ => false)

/-- The full final state of the (failing) search on the 1x1 matrix `[[2]]`. -/
def solveTwoRun : Bool × Grid × Arr × Vis :=
  match SolveMinesweeper 6 (fun _ => false) arrTwo (fun _ => false) 1 1 with
  | some t => t
  | none => (true, fun _ => false, arrTwo, fun _ => false)

/-! ### Solver claims -/

/-- Claim C1, counterexample to the claim as stated: on the 1x1 target
matrix `[[1]]` the solver returns the grid placing a mine on the single
cell, but the number of mines among the in-bounds 8-neighbors of `(0,0)`
excluding the cell itself is 0, not 1.  The round trip with the
self-excluding neighbor count of the spec fails. -/
theorem solver_roundtrip_spec_count_fails :
    minesweeperOperations 6 arrOne 1 1 = some (some gOne)
    ∧ gOne (0, 0) = true
    ∧ specNeighborMineCount gOne 1 1 (0, 0) = 0
    ∧ arrOne (0, 0) = 1 :=
  ⟨rfl, by decide, by decide, rfl⟩

/-- Claim C1 (corrected): for every target matrix and dimensions, if the
solver returns a placement grid, then recomputing for every in-bounds
cell the number of mines among the in-bounds cells of its closed 3x3
neighborhood, the cell itself included, yields exactly the input target
matrix.  The offset tables `dx`/`dy` contain `(0, 0)`, so the count the
code maintains includes the cell itself. -/
theorem solver_roundtrip (fuel : ℕ) (arr : Arr) (N M : ℕ) (g : Grid)
    (h : minesweeperOperations fuel arr N M = some (some g)) :
    ∀ p : Cell, isValid p.1 p.2 N M → closedMineCount g N M p = arr p := by
  unfold minesweeperOperations at h
  cases hs : SolveMinesweeper fuel (fun _ => false) arr (fun _ => false) N M with
  | none => rw [hs] at h; cases h
  | some t =>
    obtain ⟨r, g', a', v'⟩ := t
    rw [hs] at h
    cases r with
    | false => simp at h
    | true =>
      simp only [Option.some.injEq] at h
      subst h
      have spec := SolveMinesweeper_spec N M fuel _ _ _ _ _ _ _ hs
      have hGU : GridUnplaced (fun _ => false) (fun _ => false) := fun _ _ => rfl
      have hInv : SolveInv arr N M (fun _ => false) arr := by
        intro p _
        rw [closedMineCount_bot]
        ring
      have hI' := (spec.2.1 hGU).2.2 arr hInv
      have hdone := spec.2.2 rfl
      intro p hp
      have h1 := isDone_spec hdone p hp
      have h2 := hI' p hp
      omega

/-- Witness for the corrected claim C1 at the concrete input `[[1]]`. -/
theorem solver_roundtrip_witness : closedMineCount gOne 1 1 (0, 0) = arrOne (0, 0) :=
  solver_roundtrip 6 arrOne 1 1 gOne rfl (0, 0) (by decide)

/-- Claim C2, counterexample to the claim as stated: on the 2x2 target
matrix all of whose entries are 3 the solver does not report the
no-solution outcome; it returns a placement grid. -/
theorem solver_two_by_two_three_solved :
    isNoSolution (minesweeperOperations 30 arrThree 2 2) = false
    ∧ resultGrid (minesweeperOperations 30 arrThree 2 2) (0, 0) = some true := by
  exact ⟨by decide, by decide⟩

/-- Claim C2 (corrected): the 1x1 matrix `[[0]]` yields a grid with no
mine, as claimed.  But because the code counts a mine in the cell itself
(the offset tables include `(0, 0)`), the 2x2 all-3 matrix is
satisfiable: the solver returns the grid with mines at `(0,0)`, `(0,1)`,
`(1,0)` and no mine at `(1,1)`, rather than reporting no solution. -/
theorem solver_trivial_cases :
    resultGrid (minesweeperOperations 6 arrZero 1 1) (0, 0) = some false
    ∧ resultGrid (minesweeperOperations 30 arrThree 2 2) (0, 0) = some true
    ∧ resultGrid (minesweeperOperations 30 arrThree 2 2) (0, 1) = some true
    ∧ resultGrid (minesweeperOperations 30 arrThree 2 2) (1, 0) = some true
    ∧ resultGrid (minesweeperOperations 30 arrThree 2 2) (1, 1) = some false
    ∧ isNoSolution (minesweeperOperations 6 arrZero 1 1) = false := by
  refine ⟨by decide, by decide, by decide, by decide, by decide, by decide⟩

/-- Claim C6 (confirmed): `minesweeperOperations` either returns the grid
of a successful search, in which case every in-bounds cell has been
decided (visited) and the grid reproduces the whole target matrix, so the
returned grid is never a half-filled placement; or the search fails and
the call returns the bare no-solution signal carrying no grid at all. -/
theorem solver_signalling (fuel : ℕ) (arr : Arr) (N M : ℕ) :
    (∀ (g : Grid) (a' : Arr) (v' : Vis),
      SolveMinesweeper fuel (fun _ => false) arr (fun _ => false) N M
          = some (true, g, a', v') →
        minesweeperOperations fuel arr N M = some (some g)
        ∧ ∀ p : Cell, isValid p.1 p.2 N M →
            v' p = true ∧ closedMineCount g N M p = arr p)
    ∧ (∀ (g' : Grid) (a' : Arr) (v' : Vis),
      SolveMinesweeper fuel (fun _ => false) arr (fun _ => false) N M
          = some (false, g', a', v') →
        minesweeperOperations fuel arr N M = some none) := by
  constructor
  · intro g a' v' hs
    constructor
    · unfold minesweeperOperations
      rw [hs]
    · have spec := SolveMinesweeper_spec N M fuel _ _ _ _ _ _ _ hs
      have hGU : GridUnplaced (fun _ => false) (fun _ => false) := fun _ _ => rfl
      have hInv : SolveInv arr N M (fun _ => false) arr := by
        intro p _
        rw [closedMineCount_bot]
        ring
      have hI' := (spec.2.1 hGU).2.2 arr hInv
      have hdone := spec.2.2 rfl
      intro p hp
      have h1 := isDone_spec hdone p hp
      have h2 := hI' p hp
      exact ⟨h1.2, by omega⟩
  · intro g' a' v' hs
    unfold minesweeperOperations
    rw [hs]

/-- Witness for claim C6: the successful branch at the 1x1 matrix `[[0]]`
and the failing branch at the 1x1 matrix `[[2]]`. -/
theorem solver_signalling_witness :
    minesweeperOperations 6 arrZero 1 1 = some (some solveZeroRun.2.1)
    ∧ solveZeroRun.2.2.2 (0, 0) = true
    ∧ closedMineCount solveZeroRun.2.1 1 1 (0, 0) = arrZero (0, 0)
    ∧ minesweeperOperations 6 arrTwo 1 1 = some none := by
  have h1 := (solver_signalling 6 arrZero 1 1).1
    solveZeroRun.2.1 solveZeroRun.2.2.1 solveZeroRun.2.2.2 rfl
  have h2 := (solver_signalling 6 arrTwo 1 1).2
    solveTwoRun.2.1 solveTwoRun.2.2.1 solveTwoRun.2.2.2 rfl
  exact ⟨h1.1, (h1.2 (0, 0) (by decide)).1, (h1.2 (0, 0) (by decide)).2, h2⟩

/-- Claim C7 (confirmed): the undo loop adds back one to exactly the
entries the `isSafe` decrement loop touched, so the two loops compose to
the identity; and on exit from any failed search call the count matrix
and the visited grid are restored exactly to their values on entry (the
placement grid as well, under the invariant that unvisited cells carry no
mine, which holds in every reachable search state). -/
theorem solver_rollback_exact (fuel : ℕ) (N M : ℕ) (g : Grid) (a : Arr) (v : Vis)
    (g' : Grid) (a' : Arr) (v' : Vis)
    (h : SolveMinesweeper fuel g a v N M = some (false, g', a', v')) :
    (∀ x y : ℤ, adjustNbhd 1 (adjustNbhd (-1) a x y N M) x y N M = a)
    ∧ a' = a ∧ v' = v ∧ (GridUnplaced g v → g' = g) := by
  have spec := SolveMinesweeper_spec N M fuel _ _ _ _ _ _ _ h
  exact ⟨fun x y => adjustNbhd_inc_dec a x y N M,
    (spec.1 rfl).1, (spec.1 rfl).2, fun hGU => (spec.2.1 hGU).1 rfl⟩

/-- Witness for claim C7 at the failing 1x1 matrix `[[2]]`: the final
count matrix and visited grid equal the initial ones. -/
theorem solver_rollback_exact_witness :
    solveTwoRun.2.2.1 = arrTwo ∧ solveTwoRun.2.2.2 = (fun _ => false)
    ∧ solveTwoRun.2.1 = (fun _ => false) := by
  have h := solver_rollback_exact 6 1 1 (fun _ => false) arrTwo (fun _ => false)
    solveTwoRun.2.1 solveTwoRun.2.2.1 solveTwoRun.2.2.2 rfl
  exact ⟨h.2.1, h.2.2.1, h.2.2.2 (fun _ _ => rfl)⟩

/-! ## The knowledge base -/

/-- Strict ordering of cells, used to keep list-represented Python sets
in a canonical ascending order. -/
def cellLt (a b : Cell) : Prop :=
  a.1 < b.1 ∨ (a.1 = b.1 ∧ a.2 < b.2)

instance (a b : Cell) : Decidable (cellLt a b) := by
  unfold cellLt
  infer_instance

/-- Python sets of cells are embedded as duplicate-free lists kept in
ascending `cellLt` order: structural equality of canonical lists is
extensional equality of the sets (Python `==` on sets), and folding
over the list is iterating the set.  `insertCell` is `set.add`. -/
def insertCell (c : Cell) : List Cell → List Cell
  | [] => [c]
  | d :: l =>
    if c = d then d :: l
    else if cellLt c d then c :: d :: l
    else d :: insertCell c l

/-- `set.remove` on the canonical list representation. -/
def eraseCell (c : Cell) : List Cell → List Cell
  | [] => []
  | d :: l => if c = d then l else d :: eraseCell c l

/-- Set intersection on the list representation. -/
def interCell (l1 l2 : List Cell) : List Cell :=
  l1.filter (fun c => decide (c ∈ l2))

/-- Set difference on the list representation (`s2 - s1` of step 5). -/
def sdiffCell (l1 l2 : List Cell) : List Cell :=
  l1.filter (fun c => decide (c ∉ l2))

lemma mem_insertCell {x c : Cell} : ∀ {l : List Cell}, x ∈ insertCell c l ↔ x = c ∨ x ∈ l := by
  intro l
  induction l with
  | nil => simp [insertCell]
  | cons d l ih =>
    unfold insertCell
    split_ifs with h1 h2
    · subst h1
      simp [List.mem_cons]
    · simp [List.mem_cons]
    · simp only [List.mem_cons, ih]
      tauto

lemma interCell_insert_of_not_mem {c : Cell} {m : List Cell} (hc : c ∉ m) :
    ∀ s : List Cell, interCell (insertCell c s) m = interCell s m := by
  intro s
  induction s with
  | nil => simp [insertCell, interCell, hc]
  | cons d l ih =>
    unfold insertCell
    split_ifs with h1 h2
    · rfl
    · show interCell (c :: d :: l) m = _
      unfold interCell
      rw [List.filter_cons_of_neg (by simp [hc])]
    · show interCell (d :: insertCell c l) m = _
      unfold interCell at ih ⊢
      rw [List.filter_cons, List.filter_cons, ih]

/-- Embedding of the class `Sentence` (source line 85): a set of board
cells together with the number of mines among them.  Python `==` on
sentences compares the cell set and the count; on the canonical list
representation this is structural equality. -/
structure Sentence where
  cells : List Cell
  count : ℤ
deriving DecidableEq

namespace Sentence

/-- Embedding of `Sentence.known_mines` (source line 102). -/
def known_mines (s : Sentence) : Option (List Cell) :=
  if s.count = (s.cells.length : ℤ) then some s.cells else none

/-- Embedding of `Sentence.known_safes` (source line 109); the Python
test `if not self.count` holds exactly when the count is zero. -/
def known_safes (s : Sentence) : Option (List Cell) :=
  if s.count = 0 then some s.cells else none

/-- Embedding of `Sentence.mark_mine` (source line 116). -/
def mark_mine (s : Sentence) (c : Cell) : Sentence :=
  if c ∈ s.cells then ⟨eraseCell c s.cells, s.count - 1⟩ else s

/-- Embedding of `Sentence.mark_safe` (source line 125). -/
def mark_safe (s : Sentence) (c : Cell) : Sentence :=
  if c ∈ s.cells then ⟨eraseCell c s.cells, s.count⟩ else s

end Sentence

/-- Embedding of the class `MinesweeperAI` (source line 134).  Python
keeps mutable `Sentence` objects in a list; the embedding pairs every
sentence value with an identifier that is unique across the lifetime of
the knowledge base, so that the object identity test
`sentence1 is sentence2` of the resolution loop is expressible.
`nextId` is the next unused identifier. -/
structure MinesweeperAI where
  height : ℤ
  width : ℤ
  moves_made : List Cell
  mines : List Cell
  safes : List Cell
  knowledge : List (ℕ × Sentence)
  nextId : ℕ

/-- A fresh knowledge base as built by the constructor of
`MinesweeperAI`. -/
def initAI (height width : ℤ) : MinesweeperAI :=
  ⟨height, width, [], [], [], [], 0⟩

namespace MinesweeperAI

/-- Embedding of `MinesweeperAI.mark_mine` (source line 153): record the
cell in the global mine set and forward the mark to every sentence. -/
def mark_mine (ai : MinesweeperAI) (c : Cell) : MinesweeperAI :=
  { ai with
    mines := insertCell c ai.mines
    knowledge := ai.knowledge.map (fun e => (e.1, e.2.mark_mine c)) }

/-- Embedding of `MinesweeperAI.mark_safe` (source line 162). -/
def mark_safe (ai : MinesweeperAI) (c : Cell) : MinesweeperAI :=
  { ai with
    safes := insertCell c ai.safes
    knowledge := ai.knowledge.map (fun e => (e.1, e.2.mark_safe c)) }

/-- Marking every cell of a list safe, as the loop
`for cell in safes.copy(): self.mark_safe(cell)` of step 4 does; the
list is the snapshot the loop iterates. -/
def markSafeAll (ai : MinesweeperAI) (cs : List Cell) : MinesweeperAI :=
  cs.foldl mark_safe ai

/-- Marking every cell of a list as a mine, step 4 mine loop. -/
def markMineAll (ai : MinesweeperAI) (cs : List Cell) : MinesweeperAI :=
  cs.foldl mark_mine ai

/-- Safe half of the step 4 body: Python tests `if safes:`, which is
false both for `None` and for an empty set. -/
def step4Safes (ai : MinesweeperAI) (s : Sentence) : MinesweeperAI :=
  match s.known_safes with
  | some S => if S = [] then ai else markSafeAll ai S
  | none => ai

/-- Mine half of the step 4 body: the sentence is re-read from the list
at its index, because the safe marks may have mutated it in place. -/
def step4Mines (ai : MinesweeperAI) (i : ℕ) : MinesweeperAI :=
  match ai.knowledge.get? i with
  | none => ai
  | some e =>
    match e.2.known_mines with
    | some T => if T = [] then ai else markMineAll ai T
    | none => ai

/-- One iteration of the step 4 loop of `add_knowledge` (source line
216) at list index `i`. -/
def step4Body (ai : MinesweeperAI) (i : ℕ) : MinesweeperAI :=
  match ai.knowledge.get? i with
  | none => ai
  | some e => step4Mines (step4Safes ai e.2) i

/-- The step 4 loop: iterate the body over list indices.  Marking never
adds or removes list entries, so the length taken as fuel runs the loop
over every index exactly as the Python iterator does. -/
def step4Go : ℕ → MinesweeperAI → ℕ → MinesweeperAI
  | 0, ai, _ => ai
  | f + 1, ai, i =>
    if i < ai.knowledge.length then step4Go f (step4Body ai i) (i + 1) else ai

/-- Step 4 of `add_knowledge`: one direct-deduction pass over the
sentence list. -/
def step4 (ai : MinesweeperAI) : MinesweeperAI :=
  step4Go ai.knowledge.length ai 0

end MinesweeperAI

/-- The nine cells of the 3x3 block centered at `c`, in the row-major
order of the two nested loops of step 3 (source line 197); the center
is skipped inside the loop body. -/
def nbrs9 (c : Cell) : List Cell :=
  [(c.1 - 1, c.2 - 1), (c.1 - 1, c.2), (c.1 - 1, c.2 + 1),
   (c.1, c.2 - 1), (c.1, c.2), (c.1, c.2 + 1),
   (c.1 + 1, c.2 - 1), (c.1 + 1, c.2), (c.1 + 1, c.2 + 1)]

namespace MinesweeperAI

/-- The candidate cell set and adjusted count built by step 3 of
`add_knowledge` (source lines 194 to 211): unexplored non-mine in-bounds
neighbors are collected, and the count drops by one for every in-bounds
neighbor already known to be a mine. -/
def buildSentence (ai : MinesweeperAI) (cell : Cell) (count : ℤ) : List Cell × ℤ :=
  (nbrs9 cell).foldl
    (fun acc p =>
      if p = cell then acc
      else if 0 ≤ p.1 ∧ p.1 < ai.height ∧ 0 ≤ p.2 ∧ p.2 < ai.width then
        (if p ∉ ai.moves_made ∧ p ∉ ai.mines then (insertCell p acc.1, acc.2)
         else if p ∈ ai.mines then (acc.1, acc.2 - 1)
         else acc)
      else acc)
    ([], count)

/-- Step 1 of `add_knowledge`: record the cell as a made move. -/
def recordMove (ai : MinesweeperAI) (cell : Cell) : MinesweeperAI :=
  { ai with moves_made := insertCell cell ai.moves_made }

/-- End of step 3 of `add_knowledge`: append the new sentence, with a
fresh identity, whatever its adjusted count is. -/
def addNewSentence (ai : MinesweeperAI) (cell : Cell) (count : ℤ) : MinesweeperAI :=
  { ai with
    knowledge := ai.knowledge
      ++ [(ai.nextId, ⟨(buildSentence ai cell count).1, (buildSentence ai cell count).2⟩)]
    nextId := ai.nextId + 1 }

end MinesweeperAI

/-- `list.remove(x)` of Python: drop the first element whose value
equals the given sentence value. -/
def removeFirstVal : List (ℕ × Sentence) → Sentence → List (ℕ × Sentence)
  | [], _ => []
  | e :: l, s => if e.2 = s then l else e :: removeFirstVal l s

/-- Inner loop of step 5 of `add_knowledge` (source line 229): `s1` is
the sentence object fetched by the outer iterator (identifier and
value), `j` the inner iterator position, `nid` the next fresh sentence
identity.  Mirrors the Python semantics of iterating by index over a
list that shrinks on `remove` and grows on `append`.  The loop does not
always terminate (resolving inconsistent sentences can generate an
unbounded stream of new sentences), hence the fuel. -/
def step5Inner : ℕ → List (ℕ × Sentence) → ℕ → ℕ × Sentence → ℕ →
    Option (List (ℕ × Sentence) × ℕ)
  | 0, _, _, _, _ => none
  | f + 1, l, nid, s1, j =>
    match l.get? j with
    | none => some (l, nid)
    | some s2 =>
      if s1.1 = s2.1 then step5Inner f l nid s1 (j + 1)
      else if s1.2 = s2.2 then step5Inner f (removeFirstVal l s2.2) nid s1 (j + 1)
      else if ∀ c ∈ s1.2.cells, c ∈ s2.2.cells then
        if (⟨sdiffCell s2.2.cells s1.2.cells, s2.2.count - s1.2.count⟩ : Sentence)
            ∈ l.map Prod.snd then
          step5Inner f l nid s1 (j + 1)
        else
          step5Inner f
            (l ++ [(nid, ⟨sdiffCell s2.2.cells s1.2.cells, s2.2.count - s1.2.count⟩)])
            (nid + 1) s1 (j + 1)
      else step5Inner f l nid s1 (j + 1)

/-- Outer loop of step 5: fetch the sentence object at position `i`, run
the inner loop over the whole current list, continue at `i + 1` on the
resulting list. -/
def step5Outer : ℕ → List (ℕ × Sentence) → ℕ → ℕ → Option (List (ℕ × Sentence) × ℕ)
  | 0, _, _, _ => none
  | f + 1, l, nid, i =>
    match l.get? i with
    | none => some (l, nid)
    | some s1 =>
      match step5Inner f l nid s1 0 with
      | none => none
      | some (l2, nid2) => step5Outer f l2 nid2 (i + 1)

namespace MinesweeperAI

/-- Step 5 of `add_knowledge`: subset resolution and deduplication over
the sentence list.  Only the sentence list and the identity counter
change. -/
def step5 (fuel : ℕ) (ai : MinesweeperAI) : Option MinesweeperAI :=
  match step5Outer fuel ai.knowledge ai.nextId 0 with
  | none => none
  | some (l, nid) => some { ai with knowledge := l, nextId := nid }

/-- Embedding of `MinesweeperAI.add_knowledge` (source line 171): record
the move, mark the cell safe, append the new sentence built from the
unexplored neighbors, run one direct-deduction pass, then run the
resolution loop. -/
def add_knowledge (fuel : ℕ) (ai : MinesweeperAI) (cell : Cell) (count : ℤ) :
    Option MinesweeperAI :=
  step5 fuel (step4 (addNewSentence ((recordMove ai cell).mark_safe cell) cell count))

/-- Embedding of `MinesweeperAI.make_safe_move` (source line 350): a
member of `safes - moves_made`, or nothing.  The Python random choice
is refined to the least candidate; no state is touched. -/
def make_safe_move (ai : MinesweeperAI) : Option Cell :=
  (ai.safes.filter (fun c => decide (c ∉ ai.moves_made))).head?

/-- The board cells in row-major order, for `make_random_move`. -/
def gridCells (h w : ℤ) : List Cell :=
  (List.range h.toNat).flatMap
    (fun i => (List.range w.toNat).map (fun j => ((i : ℤ), (j : ℤ))))

/-- Embedding of `MinesweeperAI.make_random_move` (source line 364): a
cell neither made nor known to be a mine, or nothing when the counts
say the board is exhausted.  The Python random loop is refined to the
least candidate; no state is touched. -/
def make_random_move (ai : MinesweeperAI) : Option Cell :=
  if (ai.mines.length : ℤ) + (ai.moves_made.length : ℤ) = ai.height * ai.width then none
  else
    ((gridCells ai.height ai.width).filter
      (fun c => decide (c ∉ ai.moves_made) && decide (c ∉ ai.mines))).head?

end MinesweeperAI

/-! ### Knowledge base claims -/

/-- Claim C9 (confirmed): marking a cell absent from a sentence leaves
the sentence unchanged; marking a member as a mine removes it and
decrements the count by exactly one, marking it safe removes it and
leaves the count unchanged. -/
theorem sentence_marking (s : Sentence) (c : Cell) :
    (c ∉ s.cells → s.mark_mine c = s ∧ s.mark_safe c = s)
    ∧ (c ∈ s.cells →
        (s.mark_mine c).cells = eraseCell c s.cells ∧ (s.mark_mine c).count = s.count - 1
        ∧ (s.mark_safe c).cells = eraseCell c s.cells ∧ (s.mark_safe c).count = s.count) := by
  constructor
  · intro h
    unfold Sentence.mark_mine Sentence.mark_safe
    rw [if_neg h, if_neg h]
    exact ⟨rfl, rfl⟩
  · intro h
    unfold Sentence.mark_mine Sentence.mark_safe
    rw [if_pos h, if_pos h]
    exact ⟨rfl, rfl, rfl, rfl⟩

/-- Witness for claim C9 on the one-cell sentence with count one. -/
theorem sentence_marking_witness :
    (Sentence.mark_mine ⟨[(0, 0)], 1⟩ (1, 1) = ⟨[(0, 0)], 1⟩)
    ∧ (Sentence.mark_mine ⟨[(0, 0)], 1⟩ (0, 0)).count = 1 - 1
    ∧ (Sentence.mark_safe ⟨[(0, 0)], 1⟩ (0, 0)).cells = eraseCell (0, 0) [(0, 0)] :=
  ⟨((sentence_marking ⟨[(0, 0)], 1⟩ (1, 1)).1 (by decide)).1,
   ((sentence_marking ⟨[(0, 0)], 1⟩ (0, 0)).2 (by decide)).2.1,
   ((sentence_marking ⟨[(0, 0)], 1⟩ (0, 0)).2 (by decide)).2.2.1⟩

/-- Claim C8, counterexample to the claim as stated: marking the same
cell first safe and then as a mine, two perfectly legal calls of the
public interface, reaches a state whose safe and mine sets both contain
the cell.  Neither marking routine removes the cell from the opposite
set. -/
theorem disjointness_fails :
    (0, 0) ∈ (((initAI 2 2).mark_safe (0, 0)).mark_mine (0, 0)).safes
    ∧ (0, 0) ∈ (((initAI 2 2).mark_safe (0, 0)).mark_mine (0, 0)).mines :=
  ⟨by decide, by decide⟩

/-- Claim C8 (corrected): `safes ∩ mines = ∅` holds in the initial state
and is preserved by `mark_safe` on a cell not currently in `mines` and
by `mark_mine` on a cell not currently in `safes`; it is not an
invariant of arbitrary call sequences, because marking the same cell
both ways puts it in both sets (and `add_knowledge` marks cells through
these very routines without any cross-check). -/
theorem disjointness_conditional (h w : ℤ) (ai : MinesweeperAI) (c : Cell) :
    (interCell (initAI h w).safes (initAI h w).mines = [])
    ∧ (interCell ai.safes ai.mines = [] → c ∉ ai.mines →
        interCell (ai.mark_safe c).safes (ai.mark_safe c).mines = [])
    ∧ (interCell ai.safes ai.mines = [] → c ∉ ai.safes →
        interCell (ai.mark_mine c).safes (ai.mark_mine c).mines = []) := by
  refine ⟨rfl, fun hd hc => ?_, fun hd hc => ?_⟩
  · show interCell (insertCell c ai.safes) ai.mines = []
    rw [interCell_insert_of_not_mem hc, hd]
  · show interCell ai.safes (insertCell c ai.mines) = []
    have hsub : ∀ x ∈ interCell ai.safes (insertCell c ai.mines),
        x ∈ interCell ai.safes ai.mines ∨ x = c := by
      intro x hx
      unfold interCell at hx ⊢
      rw [List.mem_filter] at hx
      rcases hx with ⟨hx1, hx2⟩
      rw [decide_eq_true_eq, mem_insertCell] at hx2
      rcases hx2 with hx2 | hx2
      · exact Or.inr hx2
      · exact Or.inl (List.mem_filter.mpr ⟨hx1, by rw [decide_eq_true_eq]; exact hx2⟩)
    rcases hres : interCell ai.safes (insertCell c ai.mines) with _ | ⟨x, l⟩
    · rfl
    · exfalso
      have hx : x ∈ interCell ai.safes (insertCell c ai.mines) := by
        rw [hres]; exact List.mem_cons_self x l
      rcases hsub x hx with h1 | h1
      · rw [hd] at h1
        cases h1
      · subst h1
        unfold interCell at hx
        rw [List.mem_filter] at hx
        exact hc hx.1

/-- Witness for the corrected claim C8. -/
theorem disjointness_conditional_witness :
    interCell ((initAI 2 2).mark_safe (0, 0)).safes ((initAI 2 2).mark_safe (0, 0)).mines = [] :=
  (disjointness_conditional 2 2 (initAI 2 2) (0, 0)).2.1 (by decide) (by decide)

/-! ### A negative adjusted count is stored silently (claim C5) -/

/-- Some stored sentence claims a negative number of mines. -/
def hasNegativeSentence (ai : MinesweeperAI) : Prop :=
  ∃ s ∈ ai.knowledge.map Prod.snd, s.count < 0

instance (ai : MinesweeperAI) : Decidable (hasNegativeSentence ai) := by
  unfold hasNegativeSentence
  infer_instance

/-- A 2x2 knowledge base that already knows `(0, 1)` is a mine. -/
def aiC5 : MinesweeperAI := ⟨2, 2, [], [(0, 1)], [], [], 0⟩

/-- The state `add_knowledge` reaches from `aiC5` on the report
`cell = (0, 0), count = 0`, whose adjusted count is -1. -/
def aiC5out : MinesweeperAI :=
  match MinesweeperAI.add_knowledge 50 aiC5 (0, 0) 0 with
  | some k => k
  | none => aiC5

/-- Claim C5, counterexample to the claim as stated: with `(0, 1)`
already a known mine, the call of `add_knowledge` at `(0, 0)` with
count 0 computes the adjusted count -1, stores the sentence
`{(1,0), (1,1)} = -1` in the knowledge base and returns normally; no
fault of any kind is raised or reported. -/
theorem negative_count_stored :
    MinesweeperAI.add_knowledge 50 aiC5 (0, 0) 0 = some aiC5out
    ∧ (⟨[(1, 0), (1, 1)], -1⟩ : Sentence) ∈ aiC5out.knowledge.map Prod.snd
    ∧ hasNegativeSentence aiC5out :=
  ⟨rfl, by decide, by decide⟩

/-- Claim C5 (corrected): step 3 of `add_knowledge` performs no
consistency check at all: the sentence built from the candidate set and
the adjusted count is appended to the knowledge base unconditionally, in
particular when the adjusted count is negative, and nothing is reported
to the caller. -/
theorem step3_stores_negative_count (ai : MinesweeperAI) (cell : Cell) (count : ℤ)
    (hneg : (((ai.recordMove cell).mark_safe cell).buildSentence cell count).2 < 0) :
    hasNegativeSentence (((ai.recordMove cell).mark_safe cell).addNewSentence cell count) := by
  refine ⟨⟨(((ai.recordMove cell).mark_safe cell).buildSentence cell count).1,
    (((ai.recordMove cell).mark_safe cell).buildSentence cell count).2⟩, ?_, hneg⟩
  unfold MinesweeperAI.addNewSentence
  simp

/-- Witness for the corrected claim C5 at the concrete state `aiC5`. -/
theorem step3_stores_negative_count_witness :
    hasNegativeSentence ((aiC5.recordMove (0, 0)).mark_safe (0, 0) |>.addNewSentence (0, 0) 0) :=
  step3_stores_negative_count aiC5 (0, 0) 0 (by decide)

/-! ### The single deduction pass is not a fixed point (claim C3) -/

/-- A 2x2 knowledge base holding the single sentence
`{(0,1), (1,0)} = 1`. -/
def aiC3 : MinesweeperAI := ⟨2, 2, [], [], [], [(0, ⟨[(0, 1), (1, 0)], 1⟩)], 1⟩

/-- The state `add_knowledge` reaches from `aiC3` on the report
`cell = (0, 0), count = 2`. -/
def aiC3out : MinesweeperAI :=
  match MinesweeperAI.add_knowledge 100 aiC3 (0, 0) 2 with
  | some k => k
  | none => aiC3

/-- Claim C3, the failing input: from `aiC3`, running `add_knowledge` at
`(0, 0)` with count 2 appends `{(0,1),(1,0),(1,1)} = 2`, and resolution
(step 5) then derives `{(1,1)} = 1`; but the marking pass (step 4)
already ran before resolution, so `(1,1)` is not in the mine set when
the call returns.  Re-running the direct-deduction pass on the returned
state produces the new mine cell `(1,1)`: the returned state is not
closed under the propagation rules, refuting the claim. -/
theorem fixed_point_fails :
    MinesweeperAI.add_knowledge 100 aiC3 (0, 0) 2 = some aiC3out
    ∧ (⟨[(1, 1)], 1⟩ : Sentence) ∈ aiC3out.knowledge.map Prod.snd
    ∧ (1, 1) ∉ aiC3out.mines
    ∧ (1, 1) ∈ (MinesweeperAI.step4 aiC3out).mines :=
  ⟨rfl, by decide, by decide, by decide⟩

/-! ### Monotonic growth of derived knowledge (claim C10) -/

/-- The three derived sets only ever grow from `ai` to `ai2`. -/
def grows (ai ai2 : MinesweeperAI) : Prop :=
  ai.moves_made ⊆ ai2.moves_made ∧ ai.safes ⊆ ai2.safes ∧ ai.mines ⊆ ai2.mines

lemma grows_refl (ai : MinesweeperAI) : grows ai ai :=
  ⟨fun _ h => h, fun _ h => h, fun _ h => h⟩

lemma grows_trans {a b c : MinesweeperAI} (h1 : grows a b) (h2 : grows b c) : grows a c :=
  ⟨fun _ h => h2.1 (h1.1 h), fun _ h => h2.2.1 (h1.2.1 h), fun _ h => h2.2.2 (h1.2.2 h)⟩

lemma subset_insertCell (c : Cell) (l : List Cell) : l ⊆ insertCell c l :=
  fun _ hx => mem_insertCell.mpr (Or.inr hx)

lemma grows_mark_safe (ai : MinesweeperAI) (c : Cell) : grows ai (ai.mark_safe c) :=
  ⟨fun _ h => h, subset_insertCell c ai.safes, fun _ h => h⟩

lemma grows_mark_mine (ai : MinesweeperAI) (c : Cell) : grows ai (ai.mark_mine c) :=
  ⟨fun _ h => h, fun _ h => h, subset_insertCell c ai.mines⟩

lemma grows_markSafeAll : ∀ (cs : List Cell) (ai : MinesweeperAI),
    grows ai (ai.markSafeAll cs) := by
  intro cs
  induction cs with
  | nil => intro ai; exact grows_refl ai
  | cons c cs ih =>
    intro ai
    exact grows_trans (grows_mark_safe ai c) (ih (ai.mark_safe c))

lemma grows_markMineAll : ∀ (cs : List Cell) (ai : MinesweeperAI),
    grows ai (ai.markMineAll cs) := by
  intro cs
  induction cs with
  | nil => intro ai; exact grows_refl ai
  | cons c cs ih =>
    intro ai
    exact grows_trans (grows_mark_mine ai c) (ih (ai.mark_mine c))

lemma grows_step4Safes (ai : MinesweeperAI) (s : Sentence) : grows ai (ai.step4Safes s) := by
  unfold MinesweeperAI.step4Safes
  rcases s.known_safes with _ | S
  · exact grows_refl ai
  · show grows ai (if S = [] then ai else ai.markSafeAll S)
    split_ifs
    · exact grows_refl ai
    · exact grows_markSafeAll S ai

lemma grows_step4Mines (ai : MinesweeperAI) (i : ℕ) : grows ai (ai.step4Mines i) := by
  unfold MinesweeperAI.step4Mines
  rcases ai.knowledge.get? i with _ | e
  · exact grows_refl ai
  · show grows ai (match e.2.known_mines with
      | some T => if T = [] then ai else ai.markMineAll T
      | none => ai)
    rcases e.2.known_mines with _ | T
    · exact grows_refl ai
    · show grows ai (if T = [] then ai else ai.markMineAll T)
      split_ifs
      · exact grows_refl ai
      · exact grows_markMineAll T ai

lemma grows_step4Body (ai : MinesweeperAI) (i : ℕ) : grows ai (ai.step4Body i) := by
  unfold MinesweeperAI.step4Body
  rcases ai.knowledge.get? i with _ | e
  · exact grows_refl ai
  · exact grows_trans (grows_step4Safes ai e.2) (grows_step4Mines (ai.step4Safes e.2) i)

lemma grows_step4Go : ∀ (f : ℕ) (ai : MinesweeperAI) (i : ℕ),
    grows ai (MinesweeperAI.step4Go f ai i) := by
  intro f
  induction f with
  | zero => intro ai i; exact grows_refl ai
  | succ f ih =>
    intro ai i
    show grows ai (if i < ai.knowledge.length then
      MinesweeperAI.step4Go f (ai.step4Body i) (i + 1) else ai)
    split_ifs
    · exact grows_trans (grows_step4Body ai i) (ih (ai.step4Body i) (i + 1))
    · exact grows_refl ai

lemma grows_step4 (ai : MinesweeperAI) : grows ai ai.step4 :=
  grows_step4Go ai.knowledge.length ai 0

lemma step5_sets {fuel : ℕ} {ai ai2 : MinesweeperAI}
    (h : ai.step5 fuel = some ai2) :
    ai2.moves_made = ai.moves_made ∧ ai2.safes = ai.safes ∧ ai2.mines = ai.mines := by
  unfold MinesweeperAI.step5 at h
  rcases h5 : step5Outer fuel ai.knowledge ai.nextId 0 with _ | ⟨l, nid⟩
  · rw [h5] at h
    cases h
  · rw [h5] at h
    simp only [Option.some.injEq] at h
    subst h
    exact ⟨rfl, rfl, rfl⟩

lemma grows_recordMove (ai : MinesweeperAI) (c : Cell) : grows ai (ai.recordMove c) :=
  ⟨subset_insertCell c ai.moves_made, fun _ h => h, fun _ h => h⟩

lemma grows_addNewSentence (ai : MinesweeperAI) (c : Cell) (n : ℤ) :
    grows ai (ai.addNewSentence c n) :=
  ⟨fun _ h => h, fun _ h => h, fun _ h => h⟩

/-- Claim C10 (confirmed): none of `mark_safe`, `mark_mine` and
`add_knowledge` ever removes a cell from `moves_made`, `safes` or
`mines`; after any of these calls each of the three sets contains its
previous value.  (`make_safe_move` and `make_random_move` read the state
without producing a new one, so they change nothing by construction.) -/
theorem kb_monotone (ai : MinesweeperAI) (c : Cell) (n : ℤ) (fuel : ℕ) :
    (ai.moves_made ⊆ (ai.mark_safe c).moves_made ∧ ai.safes ⊆ (ai.mark_safe c).safes
      ∧ ai.mines ⊆ (ai.mark_safe c).mines)
    ∧ (ai.moves_made ⊆ (ai.mark_mine c).moves_made ∧ ai.safes ⊆ (ai.mark_mine c).safes
      ∧ ai.mines ⊆ (ai.mark_mine c).mines)
    ∧ (∀ ai2 : MinesweeperAI, MinesweeperAI.add_knowledge fuel ai c n = some ai2 →
        ai.moves_made ⊆ ai2.moves_made ∧ ai.safes ⊆ ai2.safes ∧ ai.mines ⊆ ai2.mines) := by
  refine ⟨grows_mark_safe ai c, grows_mark_mine ai c, fun ai2 h => ?_⟩
  unfold MinesweeperAI.add_knowledge at h
  have h5 := step5_sets h
  have hg : grows ai (((ai.recordMove c).mark_safe c).addNewSentence c n).step4 :=
    grows_trans (grows_recordMove ai c)
      (grows_trans (grows_mark_safe (ai.recordMove c) c)
        (grows_trans (grows_addNewSentence ((ai.recordMove c).mark_safe c) c n)
          (grows_step4 (((ai.recordMove c).mark_safe c).addNewSentence c n))))
  rw [h5.1, h5.2.1, h5.2.2]
  exact hg

/-- Witness for claim C10 at the concrete run from `aiC5`. -/
theorem kb_monotone_witness :
    aiC5.moves_made ⊆ aiC5out.moves_made ∧ aiC5.safes ⊆ aiC5out.safes
    ∧ aiC5.mines ⊆ aiC5out.mines :=
  (kb_monotone aiC5 (0, 0) 0 50).2.2 aiC5out rfl

/-! ### Subset resolution derives but does not mark (claim C4) -/

lemma step5Inner_done (f : ℕ) (l : List (ℕ × Sentence)) (nid : ℕ) (s1 : ℕ × Sentence)
    (j : ℕ) (h : l.get? j = none) :
    step5Inner (f + 1) l nid s1 j = some (l, nid) := by
  rw [step5Inner, h]

lemma step5Inner_skip_id (f : ℕ) (l : List (ℕ × Sentence)) (nid : ℕ) (s1 : ℕ × Sentence)
    (j : ℕ) (s2 : ℕ × Sentence) (h : l.get? j = some s2) (hid : s1.1 = s2.1) :
    step5Inner (f + 1) l nid s1 j = step5Inner f l nid s1 (j + 1) := by
  rw [step5Inner, h]
  dsimp only
  rw [if_pos hid]

lemma step5Inner_skip_far (f : ℕ) (l : List (ℕ × Sentence)) (nid : ℕ) (s1 : ℕ × Sentence)
    (j : ℕ) (s2 : ℕ × Sentence) (h : l.get? j = some s2) (hid : ¬ s1.1 = s2.1)
    (hval : ¬ s1.2 = s2.2) (hsub : ¬ ∀ c ∈ s1.2.cells, c ∈ s2.2.cells) :
    step5Inner (f + 1) l nid s1 j = step5Inner f l nid s1 (j + 1) := by
  rw [step5Inner, h]
  dsimp only
  rw [if_neg hid, if_neg hval, if_neg hsub]

lemma step5Inner_skip_present (f : ℕ) (l : List (ℕ × Sentence)) (nid : ℕ)
    (s1 : ℕ × Sentence) (j : ℕ) (s2 : ℕ × Sentence) (h : l.get? j = some s2)
    (hid : ¬ s1.1 = s2.1) (hval : ¬ s1.2 = s2.2)
    (hsub : ∀ c ∈ s1.2.cells, c ∈ s2.2.cells)
    (hmem : (⟨sdiffCell s2.2.cells s1.2.cells, s2.2.count - s1.2.count⟩ : Sentence)
      ∈ l.map Prod.snd) :
    step5Inner (f + 1) l nid s1 j = step5Inner f l nid s1 (j + 1) := by
  rw [step5Inner, h]
  dsimp only
  rw [if_neg hid, if_neg hval, if_pos hsub, if_pos hmem]

lemma step5Inner_append (f : ℕ) (l : List (ℕ × Sentence)) (nid : ℕ) (s1 : ℕ × Sentence)
    (j : ℕ) (s2 : ℕ × Sentence) (h : l.get? j = some s2) (hid : ¬ s1.1 = s2.1)
    (hval : ¬ s1.2 = s2.2) (hsub : ∀ c ∈ s1.2.cells, c ∈ s2.2.cells)
    (hmem : (⟨sdiffCell s2.2.cells s1.2.cells, s2.2.count - s1.2.count⟩ : Sentence)
      ∉ l.map Prod.snd) :
    step5Inner (f + 1) l nid s1 j
      = step5Inner f
          (l ++ [(nid, ⟨sdiffCell s2.2.cells s1.2.cells, s2.2.count - s1.2.count⟩)])
          (nid + 1) s1 (j + 1) := by
  rw [step5Inner, h]
  dsimp only
  rw [if_neg hid, if_neg hval, if_pos hsub, if_neg hmem]

lemma step5Outer_done (f : ℕ) (l : List (ℕ × Sentence)) (nid : ℕ) (i : ℕ)
    (h : l.get? i = none) :
    step5Outer (f + 1) l nid i = some (l, nid) := by
  rw [step5Outer, h]

lemma step5Outer_step (f : ℕ) (l : List (ℕ × Sentence)) (nid : ℕ) (i : ℕ)
    (s1 : ℕ × Sentence) (l2 : List (ℕ × Sentence)) (nid2 : ℕ)
    (h : l.get? i = some s1) (hin : step5Inner f l nid s1 0 = some (l2, nid2)) :
    step5Outer (f + 1) l nid i = step5Outer f l2 nid2 (i + 1) := by
  rw [step5Outer, h]
  dsimp only
  rw [hin]

/-- Claim C4, counterexample to the claim as stated: on the failing
input of claim C3, the resolution step derives the sentence
`{(1,1)} = 1` but the cell `(1,1)` is not in the mine set when
`add_knowledge` returns: resolution runs after the marking pass, and
nothing marks mines during resolution. -/
theorem resolution_without_marking :
    MinesweeperAI.add_knowledge 100 aiC3 (0, 0) 2 = some aiC3out
    ∧ (⟨[(1, 1)], 1⟩ : Sentence) ∈ aiC3out.knowledge.map Prod.snd
    ∧ (1, 1) ∉ aiC3out.mines :=
  ⟨rfl, by decide, by decide⟩

/-- Claim C4 (corrected): when the knowledge base holds the sentences
`{A,B} = 1` and `{A,B,C} = 2` for distinct cells `A`, `B`, `C`, the
resolution loop of step 5 derives and stores the sentence `{C} = 1` and
stores nothing else; but step 5 changes no mine set at all, so `C` is a
member of the mine set only after the deduction pass of a later
`add_knowledge` call, not when the resolution step completes. -/
theorem subset_resolution_derives (A B C : Cell) (i0 i1 n : ℕ)
    (_hAB : A ≠ B) (hAC : A ≠ C) (hBC : B ≠ C)
    (h01 : i0 ≠ i1) (h0n : i0 ≠ n) (h1n : i1 ≠ n) :
    step5Outer 30 [(i0, ⟨[A, B], 1⟩), (i1, ⟨[A, B, C], 2⟩)] n 0
      = some ([(i0, ⟨[A, B], 1⟩), (i1, ⟨[A, B, C], 2⟩), (n, ⟨[C], 1⟩)], n + 1)
    ∧ (∀ (fuel : ℕ) (ai ai2 : MinesweeperAI), ai.step5 fuel = some ai2 →
        ai2.mines = ai.mines) := by
  have hCA : C ≠ A := Ne.symm hAC
  have hCB : C ≠ B := Ne.symm hBC
  have hd1 : sdiffCell [A, B, C] [A, B] = [C] := by
    simp [sdiffCell, List.filter_cons, hCA, hCB]
  have hd2 : sdiffCell [A, B, C] [C] = [A, B] := by
    simp [sdiffCell, List.filter_cons, hAC, hBC]
  have harith : (2 : ℤ) - 1 = 1 := by norm_num
  constructor
  · rw [step5Outer_step 29 [(i0, ⟨[A, B], 1⟩), (i1, ⟨[A, B, C], 2⟩)] n 0 (i0, ⟨[A, B], 1⟩)
      [(i0, ⟨[A, B], 1⟩), (i1, ⟨[A, B, C], 2⟩), (n, ⟨[C], 1⟩)] (n + 1) rfl ?hin1]
    case hin1 =>
      rw [step5Inner_skip_id 28 [(i0, ⟨[A, B], 1⟩), (i1, ⟨[A, B, C], 2⟩)] n
        (i0, ⟨[A, B], 1⟩) 0 (i0, ⟨[A, B], 1⟩) rfl rfl]
      rw [step5Inner_append 27 [(i0, ⟨[A, B], 1⟩), (i1, ⟨[A, B, C], 2⟩)] n
        (i0, ⟨[A, B], 1⟩) 1 (i1, ⟨[A, B, C], 2⟩) rfl h01 (by simp) (by simp) ?hmem1]
      case hmem1 =>
        rw [hd1, harith]
        simp only [List.map_cons, List.map_nil, List.mem_cons, List.not_mem_nil, or_false,
          not_or]
        constructor
        · intro hcon
          rw [Sentence.mk.injEq] at hcon
          rcases hcon.1 with h
          cases h
        · intro hcon
          rw [Sentence.mk.injEq] at hcon
          omega
      rw [hd1, harith]
      rw [show ([(i0, (⟨[A, B], 1⟩ : Sentence)), (i1, ⟨[A, B, C], 2⟩)]
        ++ [(n, (⟨[C], 1⟩ : Sentence))])
        = [(i0, ⟨[A, B], 1⟩), (i1, ⟨[A, B, C], 2⟩), (n, ⟨[C], 1⟩)] from rfl]
      rw [step5Inner_skip_far 26 [(i0, ⟨[A, B], 1⟩), (i1, ⟨[A, B, C], 2⟩), (n, ⟨[C], 1⟩)]
        (n + 1) (i0, ⟨[A, B], 1⟩) 2 (n, ⟨[C], 1⟩) rfl h0n (by simp) (by simp [hAC])]
      rw [step5Inner_done 25 [(i0, ⟨[A, B], 1⟩), (i1, ⟨[A, B, C], 2⟩), (n, ⟨[C], 1⟩)]
        (n + 1) (i0, ⟨[A, B], 1⟩) 3 rfl]
    rw [step5Outer_step 28 [(i0, ⟨[A, B], 1⟩), (i1, ⟨[A, B, C], 2⟩), (n, ⟨[C], 1⟩)]
      (n + 1) 1 (i1, ⟨[A, B, C], 2⟩)
      [(i0, ⟨[A, B], 1⟩), (i1, ⟨[A, B, C], 2⟩), (n, ⟨[C], 1⟩)] (n + 1) rfl ?hin2]
    case hin2 =>
      rw [step5Inner_skip_far 27 [(i0, ⟨[A, B], 1⟩), (i1, ⟨[A, B, C], 2⟩), (n, ⟨[C], 1⟩)]
        (n + 1) (i1, ⟨[A, B, C], 2⟩) 0 (i0, ⟨[A, B], 1⟩) rfl
        (fun hcon => h01 hcon.symm) (by simp) (by simp [hCA, hCB])]
      rw [step5Inner_skip_id 26 [(i0, ⟨[A, B], 1⟩), (i1, ⟨[A, B, C], 2⟩), (n, ⟨[C], 1⟩)]
        (n + 1) (i1, ⟨[A, B, C], 2⟩) 1 (i1, ⟨[A, B, C], 2⟩) rfl rfl]
      rw [step5Inner_skip_far 25 [(i0, ⟨[A, B], 1⟩), (i1, ⟨[A, B, C], 2⟩), (n, ⟨[C], 1⟩)]
        (n + 1) (i1, ⟨[A, B, C], 2⟩) 2 (n, ⟨[C], 1⟩) rfl h1n (by simp) (by simp [hAC])]
      rw [step5Inner_done 24 [(i0, ⟨[A, B], 1⟩), (i1, ⟨[A, B, C], 2⟩), (n, ⟨[C], 1⟩)]
        (n + 1) (i1, ⟨[A, B, C], 2⟩) 3 rfl]
    rw [step5Outer_step 27 [(i0, ⟨[A, B], 1⟩), (i1, ⟨[A, B, C], 2⟩), (n, ⟨[C], 1⟩)]
      (n + 1) 2 (n, ⟨[C], 1⟩)
      [(i0, ⟨[A, B], 1⟩), (i1, ⟨[A, B, C], 2⟩), (n, ⟨[C], 1⟩)] (n + 1) rfl ?hin3]
    case hin3 =>
      rw [step5Inner_skip_far 26 [(i0, ⟨[A, B], 1⟩), (i1, ⟨[A, B, C], 2⟩), (n, ⟨[C], 1⟩)]
        (n + 1) (n, ⟨[C], 1⟩) 0 (i0, ⟨[A, B], 1⟩) rfl
        (fun hcon => h0n hcon.symm) (by simp) (by simp [hCA, hCB])]
      rw [step5Inner_skip_present 25 [(i0, ⟨[A, B], 1⟩), (i1, ⟨[A, B, C], 2⟩), (n, ⟨[C], 1⟩)]
        (n + 1) (n, ⟨[C], 1⟩) 1 (i1, ⟨[A, B, C], 2⟩) rfl
        (fun hcon => h1n hcon.symm) (by simp) (by simp) ?hmem2]
      case hmem2 =>
        rw [hd2, harith]
        simp
      rw [step5Inner_skip_id 24 [(i0, ⟨[A, B], 1⟩), (i1, ⟨[A, B, C], 2⟩), (n, ⟨[C], 1⟩)]
        (n + 1) (n, ⟨[C], 1⟩) 2 (n, ⟨[C], 1⟩) rfl rfl]
      rw [step5Inner_done 23 [(i0, ⟨[A, B], 1⟩), (i1, ⟨[A, B, C], 2⟩), (n, ⟨[C], 1⟩)]
        (n + 1) (n, ⟨[C], 1⟩) 3 rfl]
    rw [step5Outer_done 26 [(i0, ⟨[A, B], 1⟩), (i1, ⟨[A, B, C], 2⟩), (n, ⟨[C], 1⟩)]
      (n + 1) 3 rfl]
  · intro fuel ai ai2 h
    exact (step5_sets h).2.2

/-- A knowledge base with two value-equal sentence objects, for the
witness below. -/
def aiDup : MinesweeperAI :=
  ⟨2, 2, [], [(1, 1)], [], [(5, ⟨[(0, 0)], 1⟩), (7, ⟨[(0, 0)], 1⟩)], 8⟩

/-- The state step 5 reaches from `aiDup` (the duplicate is removed). -/
def aiDupOut : MinesweeperAI :=
  match MinesweeperAI.step5 50 aiDup with
  | some k => k
  | none => aiDup

/-- Witness for the corrected claim C4, at the cells `(0,0)`, `(0,1)`,
`(0,2)` and on the concrete resolution run from `aiDup`. -/
theorem subset_resolution_derives_witness :
    step5Outer 30 [(0, (⟨[(0, 0), (0, 1)], 1⟩ : Sentence)), (1, ⟨[(0, 0), (0, 1), (0, 2)], 2⟩)] 2 0
      = some ([(0, ⟨[(0, 0), (0, 1)], 1⟩), (1, ⟨[(0, 0), (0, 1), (0, 2)], 2⟩),
          (2, ⟨[(0, 2)], 1⟩)], 3)
    ∧ aiDupOut.mines = aiDup.mines :=
  ⟨(subset_resolution_derives (0, 0) (0, 1) (0, 2) 0 1 2 (by decide) (by decide) (by decide)
      (by decide) (by decide) (by decide)).1,
   (subset_resolution_derives (0, 0) (0, 1) (0, 2) 0 1 2 (by decide) (by decide) (by decide)
      (by decide) (by decide) (by decide)).2 50 aiDup aiDupOut rfl⟩

end Minesweeper
